import Mathlib

/-
Verification of the CME detection pipeline
(`final_processing.py`, `cme_detection_system.py`, `threshold_optimization.py`).

Modelling conventions:
* Python floats are modelled by `ℚ`.  Every rational is finite, so the
  `np.isfinite` conjuncts of the source's validity masks are identically
  true and are dropped from the embedded masks; the fill-value comparisons
  (`> FILL_VALUE`, `!= nan_fill_value`) are kept verbatim.
* The float power `x ** 0.67` (used for the expected solar-wind
  temperature) has no exact rational value, so the embedding is
  parametrised by a function `pow067 : ℚ → ℚ` standing for that power on
  positive arguments; every theorem below is proved for an arbitrary such
  function.  Where the source can feed a non-positive base to `**` the
  float result is `0.0` (base 0) or `nan` (negative base), which the
  embedding records with an `Option ℚ` (`none` = `nan`).
* Vectorised numpy expressions are embedded elementwise (scalar functions)
  or as functions on `List ℚ`; boolean numpy masks become `Bool`.
-/

namespace NasaCME

/-- `FILL_VALUE = -1.0e31` from `final_processing.py`. -/
def FILL : ℚ := -1e31

/-- Proton mass constant `m_p = 1.673e-27` from `final_processing.py`. -/
def m_p : ℚ := 1.673e-27

/-- Boltzmann constant `k_B = 1.381e-23` from `final_processing.py`. -/
def k_B : ℚ := 1.381e-23

/-- `np.clip(x, 0, 1)`. -/
def clip01 (x : ℚ) : ℚ := min 1 (max 0 x)

lemma clip01_nonneg (x : ℚ) : 0 ≤ clip01 x := by
  unfold clip01
  rcases le_total 1 (max 0 x) with h | h
  · rw [min_eq_left h]; exact zero_le_one
  · rw [min_eq_right h]; exact le_max_left 0 x

lemma clip01_le_one (x : ℚ) : clip01 x ≤ 1 := min_le_left _ _

lemma clip01_of_nonpos {x : ℚ} (h : x ≤ 0) : clip01 x = 0 := by
  unfold clip01
  rw [max_eq_left h, min_eq_right zero_le_one]

lemma clip01_of_one_le {x : ℚ} (h : 1 ≤ x) : clip01 x = 1 := by
  unfold clip01
  rw [max_eq_right (le_trans zero_le_one h), min_eq_left h]

/-! ### `calculate_cme_score` (final_processing.py, lines 78–134), elementwise -/

/-- `valid_proton = (pd > FILL) & isfinite(pd) & (v > FILL) & isfinite(v)`. -/
def validProton (p v : ℚ) : Prop := FILL < p ∧ FILL < v

instance (p v : ℚ) : Decidable (validProton p v) := by
  unfold validProton; infer_instance

/-- `alpha_ratio`: `a / p` on the mask `valid_proton & valid_alpha & (p > 0)`,
`0` elsewhere. -/
def alphaRatio (p v a : ℚ) : ℚ :=
  if validProton p v ∧ FILL < a ∧ 0 < p then a / p else 0

/-- `alpha_scaled = np.clip((alpha_ratio - 0.003) / 0.008, 0, 1)`,
computed on the whole array (masked-out entries hold ratio `0`). -/
def alphaScaled (p v a : ℚ) : ℚ := clip01 ((alphaRatio p v a - 0.003) / 0.008)

/-- `speed_scaled`: `np.clip((v - 380) / 200, 0, 1)` on `valid_proton`,
`0` elsewhere. -/
def speedScaled (p v : ℚ) : ℚ :=
  if validProton p v then clip01 ((v - 380) / 200) else 0

/-- `T_obs = ((t * 1000) ** 2) * m_p / (2 * k_B)`. -/
def tObs (t : ℚ) : ℚ := (t * 1000) ^ 2 * m_p / (2 * k_B)

/-- `T_exp = 3.0 * (v / 100) ** 0.67 * 1e4`, on the mask where `v > 0`. -/
def tExp (pow067 : ℚ → ℚ) (v : ℚ) : ℚ := 3 * pow067 (v / 100) * 1e4

/-- The temperature contribution: on the mask
`valid_proton & valid_thermal & (v > 0)` the source guards
`safe_T_exp = where(T_exp > 0, T_exp, nan)` so the condition
`(T_ratio < 0.5) & isfinite(T_ratio)` amounts to `T_exp > 0 ∧ T_obs/T_exp < 0.5`,
and the contribution is `max 0 (1 - 2 * T_ratio)`; `0` everywhere else. -/
def tempContrib (pow067 : ℚ → ℚ) (p v t : ℚ) : ℚ :=
  if validProton p v ∧ FILL < t ∧ 0 < v then
    (if 0 < tExp pow067 v ∧ tObs t / tExp pow067 v < 1/2 then
      max 0 (1 - 2 * (tObs t / tExp pow067 v))
    else 0)
  else 0

/-- `valid_count = valid_proton + valid_alpha + valid_thermal` (as 0/1 sums). -/
def validCount (p v t a : ℚ) : ℚ :=
  (if validProton p v then 1 else 0) +
  (if FILL < a then 1 else 0) +
  (if FILL < t then 1 else 0)

/-- `calculate_cme_score`, elementwise:
`0.4·alpha_scaled + 0.4·speed_scaled + 0.1·temp_contrib + 0.1·(valid_count/3)`. -/
def calculate_cme_score (pow067 : ℚ → ℚ) (p v t a : ℚ) : ℚ :=
  0.4 * alphaScaled p v a + 0.4 * speedScaled p v
    + 0.1 * tempContrib pow067 p v t + 0.1 * (validCount p v t a / 3)

lemma alphaScaled_nonneg (p v a : ℚ) : 0 ≤ alphaScaled p v a :=
  clip01_nonneg _

lemma alphaScaled_le_one (p v a : ℚ) : alphaScaled p v a ≤ 1 :=
  clip01_le_one _

lemma speedScaled_nonneg (p v : ℚ) : 0 ≤ speedScaled p v := by
  unfold speedScaled
  split
  · exact clip01_nonneg _
  · exact le_refl 0

lemma speedScaled_le_one (p v : ℚ) : speedScaled p v ≤ 1 := by
  unfold speedScaled
  split
  · exact clip01_le_one _
  · exact zero_le_one

lemma tObs_nonneg (t : ℚ) : 0 ≤ tObs t := by
  unfold tObs m_p k_B
  positivity

lemma tempContrib_nonneg (pow067 : ℚ → ℚ) (p v t : ℚ) :
    0 ≤ tempContrib pow067 p v t := by
  unfold tempContrib
  split
  · split
    · exact le_max_left 0 _
    · exact le_refl 0
  · exact le_refl 0

lemma tempContrib_le_one (pow067 : ℚ → ℚ) (p v t : ℚ) :
    tempContrib pow067 p v t ≤ 1 := by
  unfold tempContrib
  split
  · split
    next h =>
      have hr : 0 ≤ tObs t / tExp pow067 v :=
        div_nonneg (tObs_nonneg t) (le_of_lt h.1)
      have h1 : 1 - 2 * (tObs t / tExp pow067 v) ≤ 1 := by linarith
      exact max_le (by norm_num) h1
    · exact zero_le_one
  · exact zero_le_one

lemma validCount_nonneg (p v t a : ℚ) : 0 ≤ validCount p v t a := by
  unfold validCount
  have h1 : (0:ℚ) ≤ if validProton p v then 1 else 0 := by split <;> norm_num
  have h2 : (0:ℚ) ≤ if FILL < a then 1 else 0 := by split <;> norm_num
  have h3 : (0:ℚ) ≤ if FILL < t then 1 else 0 := by split <;> norm_num
  linarith

lemma validCount_le_three (p v t a : ℚ) : validCount p v t a ≤ 3 := by
  unfold validCount
  have h1 : (if validProton p v then (1:ℚ) else 0) ≤ 1 := by split <;> norm_num
  have h2 : (if FILL < a then (1:ℚ) else 0) ≤ 1 := by split <;> norm_num
  have h3 : (if FILL < t then (1:ℚ) else 0) ≤ 1 := by split <;> norm_num
  linarith

/-- C1: for every finite input, every composite CME score lies in `[0, 1]`;
the four weighted contributions are each non-negative and bounded by their
weight; at the scaling bounds, alpha ratio `0.003` gives alpha contribution
`0` and alpha ratio at or above `0.011` gives exactly `0.4`. -/
theorem calculate_cme_score_bounded (pow067 : ℚ → ℚ) (p v t a : ℚ) :
    (0 ≤ calculate_cme_score pow067 p v t a ∧
      calculate_cme_score pow067 p v t a ≤ 1) ∧
    (alphaRatio p v a = 0.003 → 0.4 * alphaScaled p v a = 0) ∧
    (0.011 ≤ alphaRatio p v a → 0.4 * alphaScaled p v a = 0.4) := by
  refine ⟨⟨?_, ?_⟩, ?_, ?_⟩
  · unfold calculate_cme_score
    have h1 := alphaScaled_nonneg p v a
    have h2 := speedScaled_nonneg p v
    have h3 := tempContrib_nonneg pow067 p v t
    have h4 := validCount_nonneg p v t a
    linarith
  · unfold calculate_cme_score
    have h1 := alphaScaled_le_one p v a
    have h2 := speedScaled_le_one p v
    have h3 := tempContrib_le_one pow067 p v t
    have h4 := validCount_le_three p v t a
    linarith
  · intro h
    unfold alphaScaled
    rw [h]
    rw [clip01_of_nonpos (by norm_num)]
    ring
  · intro h
    unfold alphaScaled
    rw [clip01_of_one_le (by rw [le_div_iff₀ (by norm_num)]; linarith)]
    ring

/-- Witness for C1's hypotheses: with `p = 1, v = 400`, an alpha density of
`0.003` realises ratio `0.003` (contribution `0`) and `0.02` realises a
ratio at or above `0.011` (contribution exactly `0.4`). -/
theorem calculate_cme_score_bounded_witness :
    0.4 * alphaScaled 1 400 0.003 = 0 ∧ 0.4 * alphaScaled 1 400 0.02 = 0.4 :=
  ⟨(calculate_cme_score_bounded (fun x => x) 1 400 1 0.003).2.1 (by
      unfold alphaRatio validProton FILL
      rw [if_pos (by norm_num)]
      norm_num),
   (calculate_cme_score_bounded (fun x => x) 1 400 1 0.02).2.2 (by
      unfold alphaRatio validProton FILL
      rw [if_pos (by norm_num)]
      norm_num)⟩

/-- C2: a parameter equal to the fill value `-1e31` contributes `0` to its
corresponding score term and is never a ratio denominator (a fill-valued
proton density forces the ratio itself to `0`); with all four inputs at the
fill value the score is exactly `0`. -/
theorem calculate_cme_score_fill_immune (pow067 : ℚ → ℚ) (p v t a : ℚ) :
    alphaScaled p v FILL = 0 ∧
    alphaRatio FILL v a = 0 ∧
    alphaScaled FILL v a = 0 ∧
    alphaScaled p FILL a = 0 ∧
    speedScaled FILL v = 0 ∧
    speedScaled p FILL = 0 ∧
    tempContrib pow067 FILL v t = 0 ∧
    tempContrib pow067 p FILL t = 0 ∧
    tempContrib pow067 p v FILL = 0 ∧
    calculate_cme_score pow067 FILL FILL FILL FILL = 0 := by
  have hnf : ¬ FILL < FILL := lt_irrefl FILL
  have hratio_a : alphaRatio p v FILL = 0 := by
    unfold alphaRatio
    rw [if_neg (by tauto)]
  have hratio_p : alphaRatio FILL v a = 0 := by
    unfold alphaRatio validProton
    rw [if_neg (by tauto)]
  have hratio_v : alphaRatio p FILL a = 0 := by
    unfold alphaRatio validProton
    rw [if_neg (by tauto)]
  have hsc : ∀ x y z : ℚ, alphaRatio x y z = 0 → alphaScaled x y z = 0 := by
    intro x y z h
    unfold alphaScaled
    rw [h, clip01_of_nonpos (by norm_num)]
  refine ⟨hsc _ _ _ hratio_a, hratio_p, hsc _ _ _ hratio_p, hsc _ _ _ hratio_v,
    ?_, ?_, ?_, ?_, ?_, ?_⟩
  · unfold speedScaled validProton
    rw [if_neg (by tauto)]
  · unfold speedScaled validProton
    rw [if_neg (by tauto)]
  · unfold tempContrib validProton
    rw [if_neg (by tauto)]
  · unfold tempContrib validProton
    rw [if_neg (by tauto)]
  · unfold tempContrib
    rw [if_neg (by tauto)]
  · unfold calculate_cme_score
    have h1 : alphaScaled FILL FILL FILL = 0 := hsc _ _ _ (by
      unfold alphaRatio validProton
      rw [if_neg (by tauto)])
    have h2 : speedScaled FILL FILL = 0 := by
      unfold speedScaled validProton
      rw [if_neg (by tauto)]
    have h3 : tempContrib pow067 FILL FILL FILL = 0 := by
      unfold tempContrib validProton
      rw [if_neg (by tauto)]
    have h4 : validCount FILL FILL FILL FILL = 0 := by
      unfold validCount validProton
      rw [if_neg (by tauto), if_neg hnf]
      norm_num
    rw [h1, h2, h3, h4]
    norm_num

/-! ### `detect_cme_thresholds` (final_processing.py, lines 173–231), elementwise -/

/-- The alpha flag: `valid_ratio = (p != 0) & valid_a & valid_p`, the ratio
`a / p` is computed on `valid_ratio` (0 elsewhere) and the flag is
`ratio > 0.08` there, `False` elsewhere. -/
def alphaFlag (a p : ℚ) : Bool :=
  if p ≠ 0 ∧ FILL < a ∧ FILL < p then decide (a / p > 0.08) else false

/-- The bulk-speed flag: `v > 450` on `valid_v`, `False` elsewhere. -/
def speedFlag (v : ℚ) : Bool :=
  if FILL < v then decide (v > 450) else false

/-- The float expression `(x) ** 0.67`: `nan` (`none`) for a negative base,
`0.0` for base `0`, and the abstract positive-base power otherwise. -/
def floatPow067 (pow067 : ℚ → ℚ) (x : ℚ) : Option ℚ :=
  if 0 < x then some (pow067 x) else if x = 0 then some 0 else none

/-- The float value of `T_exp = 3.0 * (v / 100) ** 0.67 * 1e4`
(`none` = `nan`, reachable only for `v < 0`). -/
def tExpFloat (pow067 : ℚ → ℚ) (v : ℚ) : Option ℚ :=
  (floatPow067 pow067 (v / 100)).map (fun y => 3 * y * 1e4)

/-- The temperature-depression flag: on the mask
`valid_v & (v > 0) & valid_t` the source keeps
`finite_mask = isfinite(T_exp) & (T_exp > 0) & isfinite(T_obs)` and flags
`T_obs < 0.5 * T_exp` there; `False` at every other index.  (On the mask
`v > 0`, so `T_exp` is the positive-base power `tExp`.) -/
def tempFlag (pow067 : ℚ → ℚ) (v t : ℚ) : Bool :=
  if FILL < v ∧ 0 < v ∧ FILL < t then
    decide (0 < tExp pow067 v ∧ tObs t < 1/2 * tExp pow067 v)
  else false

/-- C4 counterexample: at `alpha_density = -1, proton_density = -5` both
densities are valid (above the fill value) and nonzero, the ratio
`(-1)/(-5) = 0.2` exceeds `0.08`, so the alpha flag is true even though
`proton_density ≤ 0` — the source guards the denominator with `p != 0`,
not `p ≤ 0`. -/
theorem alphaFlag_neg_density_counterexample :
    alphaFlag (-1) (-5) = true ∧ (-5 : ℚ) ≤ 0 := by
  constructor
  · unfold alphaFlag FILL
    rw [if_pos (by norm_num)]
    norm_num
  · norm_num

/-- C4 amended: the ratio is defined as `0` wherever `proton_density = 0`
(the source's division guard is `p != 0`), so the alpha flag is false at
`p = 0`, and the flag is true exactly at indices where `p ≠ 0`, both
densities are valid (above the fill value) and `a / p > 0.08`. -/
theorem alphaFlag_characterisation (a p : ℚ) :
    (p = 0 → alphaFlag a p = false) ∧
    (alphaFlag a p = true ↔ (p ≠ 0 ∧ FILL < a ∧ FILL < p ∧ a / p > 0.08)) := by
  constructor
  · intro h
    unfold alphaFlag
    rw [if_neg (by tauto)]
  · unfold alphaFlag
    split
    next h => simp only [decide_eq_true_eq]; tauto
    next h => simp only [Bool.false_eq_true, false_iff]; tauto

/-- Witness for C4's amended theorem at `p = 0` and at a flagged input. -/
theorem alphaFlag_characterisation_witness :
    alphaFlag 1 0 = false ∧ alphaFlag 1 10 = true :=
  ⟨(alphaFlag_characterisation 1 0).1 rfl,
   (alphaFlag_characterisation 1 10).2.mpr (by
      refine ⟨by norm_num, ?_, ?_, by norm_num⟩ <;> (unfold FILL; norm_num))⟩

/-- C5: at every index with valid (above-fill) speed and thermal values the
temperature-depression flag is true iff the float `T_exp` is finite
(`some`), positive and `T_obs < 0.5 · T_exp` — for `v < 0` the float power
yields `nan`, for `v = 0` it yields `T_exp = 0`, so both sides are false
there; at all indices where either input is invalid the flag is false. -/
theorem tempFlag_characterisation (pow067 : ℚ → ℚ) (v t : ℚ) :
    (FILL < v → FILL < t →
      (tempFlag pow067 v t = true ↔
        ∃ e, tExpFloat pow067 v = some e ∧ 0 < e ∧ tObs t < 1/2 * e)) ∧
    (¬ (FILL < v ∧ FILL < t) → tempFlag pow067 v t = false) := by
  constructor
  · intro hv ht
    rcases lt_trichotomy v 0 with hneg | hzero | hpos
    · have hflag : tempFlag pow067 v t = false := by
        unfold tempFlag
        rw [if_neg (by intro h; exact absurd h.2.1 (not_lt.mpr (le_of_lt hneg)))]
      rw [hflag]
      simp only [Bool.false_eq_true, false_iff]
      rintro ⟨e, he, _⟩
      unfold tExpFloat floatPow067 at he
      rw [if_neg (by intro h; nlinarith), if_neg (by intro h; nlinarith)] at he
      exact Option.noConfusion he
    · have hflag : tempFlag pow067 v t = false := by
        unfold tempFlag
        rw [if_neg (by rw [hzero]; intro h; exact lt_irrefl 0 h.2.1)]
      rw [hflag]
      simp only [Bool.false_eq_true, false_iff]
      rintro ⟨e, he, hpos', _⟩
      unfold tExpFloat floatPow067 at he
      rw [hzero] at he
      rw [if_neg (by norm_num), if_pos (by norm_num)] at he
      simp only [Option.map_some', Option.some.injEq] at he
      rw [← he] at hpos'
      norm_num at hpos'
    · have hexp : tExpFloat pow067 v = some (tExp pow067 v) := by
        unfold tExpFloat floatPow067 tExp
        rw [if_pos (by positivity)]
        rfl
      unfold tempFlag
      rw [if_pos ⟨hv, hpos, ht⟩, hexp]
      simp only [decide_eq_true_eq, Option.some.injEq]
      constructor
      · rintro ⟨h1, h2⟩; exact ⟨tExp pow067 v, rfl, h1, h2⟩
      · rintro ⟨e, he, h1, h2⟩; rw [← he] at h1 h2; exact ⟨h1, h2⟩
  · intro h
    unfold tempFlag
    rw [if_neg (by tauto)]

/-- Witness for C5 at valid inputs `v = 500, t = 1` (with the identity as
the abstract power) and at an invalid thermal input. -/
theorem tempFlag_characterisation_witness :
    ((tempFlag (fun x => x) 500 1 = true ↔
        ∃ e, tExpFloat (fun x => x) 500 = some e ∧ 0 < e ∧ tObs 1 < 1/2 * e) ∧
      tempFlag (fun x => x) 500 FILL = false) :=
  ⟨(tempFlag_characterisation (fun x => x) 500 1).1
      (by unfold FILL; norm_num) (by unfold FILL; norm_num),
   (tempFlag_characterisation (fun x => x) 500 FILL).2
      (by intro h; exact absurd h.2 (lt_irrefl FILL))⟩

/-! ### `detect_cme_speed_signatures` (final_processing.py, lines 137–170) -/

/-- The aligned first-difference: `d[0] = 0`, `d[i] = ps[i] - ps[i-1]`
(`speed_changes[1:] = ps[1:] - ps[:-1]` after `speed_changes[0] = 0.0`). -/
def diffs : List ℚ → List ℚ
  | [] => []
  | x :: xs => 0 :: List.zipWith (· - ·) xs (x :: xs)

/-- The per-sample enhancement score: `np.clip((x - 380) / 200, 0, 1)` on
valid samples, `0` elsewhere. -/
def enhancementScore (x : ℚ) : ℚ :=
  if FILL < x then clip01 ((x - 380) / 200) else 0

/-- `enhancement_scores`. -/
def enhancementScores (ps : List ℚ) : List ℚ := ps.map enhancementScore

/-- `rapid_increases = (speed_changes > 5.0) & isfinite(speed_changes)`. -/
def rapidIncreases (ps : List ℚ) : List Bool :=
  (diffs ps).map (fun d => decide (5 < d))

/-- `accelerations = (acceleration_changes > 2.0) & isfinite(...)`, where
`acceleration_changes` is the aligned difference of `speed_changes`. -/
def accelerations (ps : List ℚ) : List Bool :=
  (diffs (diffs ps)).map (fun d => decide (2 < d))

/-- `detect_cme_speed_signatures`: the quadruple
`(enhancement_scores, rapid_increases, accelerations, acceleration_changes)`
(the `n = 0` early return produces four empty lists). -/
def detect_cme_speed_signatures (ps : List ℚ) :
    List ℚ × List Bool × List Bool × List ℚ :=
  (enhancementScores ps, rapidIncreases ps, accelerations ps, diffs (diffs ps))

lemma diffs_length (ps : List ℚ) : (diffs ps).length = ps.length := by
  cases ps with
  | nil => rfl
  | cons x xs =>
    simp only [diffs, List.length_cons, List.length_zipWith]
    omega

lemma diffs_getD_zero (ps : List ℚ) : (diffs ps).getD 0 0 = 0 := by
  cases ps with
  | nil => rfl
  | cons x xs => rfl

lemma getD_map_bool (f : ℚ → Bool) (hf : f 0 = false) (l : List ℚ) (i : ℕ) :
    (l.map f).getD i false = f (l.getD i 0) := by
  rw [List.getD_eq_getElem?_getD, List.getD_eq_getElem?_getD, List.getElem?_map]
  cases l[i]? with
  | none => exact hf.symm
  | some x => rfl

/-- C6: every output of `detect_cme_speed_signatures` has exactly the
input's length (so the empty input yields four empty lists and a singleton
input yields four singletons); the first difference and the second
difference at index 0 are defined as `0`; the rapid-increase flag holds
exactly where the first difference exceeds `5` and the acceleration flag
exactly where the second difference exceeds `2`. -/
theorem detect_cme_speed_signatures_spec (ps : List ℚ) (i : ℕ) :
    ((detect_cme_speed_signatures ps).1.length = ps.length ∧
      (detect_cme_speed_signatures ps).2.1.length = ps.length ∧
      (detect_cme_speed_signatures ps).2.2.1.length = ps.length ∧
      (detect_cme_speed_signatures ps).2.2.2.length = ps.length) ∧
    detect_cme_speed_signatures [] = ([], [], [], []) ∧
    ((diffs ps).getD 0 0 = 0 ∧ (diffs (diffs ps)).getD 0 0 = 0) ∧
    (detect_cme_speed_signatures ps).2.1.getD i false =
      decide (5 < (diffs ps).getD i 0) ∧
    (detect_cme_speed_signatures ps).2.2.1.getD i false =
      decide (2 < (diffs (diffs ps)).getD i 0) := by
  refine ⟨⟨?_, ?_, ?_, ?_⟩, rfl, ⟨diffs_getD_zero ps, diffs_getD_zero _⟩, ?_, ?_⟩
  · simp [detect_cme_speed_signatures, enhancementScores]
  · simp [detect_cme_speed_signatures, rapidIncreases, diffs_length]
  · simp [detect_cme_speed_signatures, accelerations, diffs_length]
  · simp [detect_cme_speed_signatures, diffs_length]
  · exact getD_map_bool _ (by norm_num) _ i
  · exact getD_map_bool _ (by norm_num) _ i

/-! ### `merge_detections` (cme_detection_system.py, lines 386–428)

The method sorts all detections by timestamp and loops: with `t` the
earliest undecided timestamp it takes
`window = combined[(datetime >= t) & (datetime <= t + W)]`, emits the
event `(window.min(), window.max())` and advances with
`i = len(combined[datetime <= t + W])`.  On the sorted list every already
decided detection is `< t`, so the window filter restricted to the suffix
is unchanged and the advance keeps exactly the detections `> t + W`.  For
`0 ≤ W` the window contains its own left endpoint `t`, so folding
`min`/`max` from `t` over the window is exactly the window's
minimum/maximum (the `W < 0` empty-window case, where pandas would emit
NaT aggregates, is modelled as the degenerate event `(t, t)`). -/

/-- One-pass window merge over the sorted timestamp list. -/
def mergeGo (W : ℚ) : List ℚ → List (ℚ × ℚ)
  | [] => []
  | t :: rest =>
    (((t :: rest).filter (fun x => decide (t ≤ x) && decide (x ≤ t + W))).foldl min t,
      ((t :: rest).filter (fun x => decide (t ≤ x) && decide (x ≤ t + W))).foldl max t) ::
      mergeGo W (rest.filter (fun x => decide (t + W < x)))
termination_by l => l.length
decreasing_by
  exact Nat.lt_succ_of_le (List.length_filter_le _ _)

lemma foldl_pres (f : ℚ → ℚ → ℚ) (P : ℚ → Prop)
    (hf : ∀ x y, P x → P y → P (f x y)) :
    ∀ (l : List ℚ) (a : ℚ), P a → (∀ x ∈ l, P x) → P (l.foldl f a)
  | [], _, ha, _ => ha
  | x :: xs, a, ha, hl =>
    foldl_pres f P hf xs (f a x) (hf a x ha (hl x (List.mem_cons_self x xs)))
      (fun y hy => hl y (List.mem_cons_of_mem x hy))

lemma foldl_min_le_init : ∀ (l : List ℚ) (a : ℚ), l.foldl min a ≤ a
  | [], a => le_refl a
  | x :: xs, a => le_trans (foldl_min_le_init xs (min a x)) (min_le_left a x)

lemma le_foldl_max : ∀ (l : List ℚ) (a : ℚ), a ≤ l.foldl max a
  | [], a => le_refl a
  | x :: xs, a => le_trans (le_max_left a x) (le_foldl_max xs (max a x))

lemma mergeGo_event_bounds (W : ℚ) (hW : 0 ≤ W) :
    ∀ (n : ℕ) (l : List ℚ), l.length ≤ n →
      ∀ e ∈ mergeGo W l, e.1 ≤ e.2 ∧ e.2 - e.1 ≤ W := by
  intro n
  induction n with
  | zero =>
    intro l hl e he
    rw [List.length_eq_zero.mp (Nat.le_zero.mp hl)] at he
    simp [mergeGo] at he
  | succ n ih =>
    intro l hl e he
    cases l with
    | nil => simp [mergeGo] at he
    | cons t rest =>
      simp only [mergeGo] at he
      rcases List.mem_cons.mp he with hev | htail
      · have hall : ∀ x ∈ (t :: rest).filter
            (fun x => decide (t ≤ x) && decide (x ≤ t + W)),
            t ≤ x ∧ x ≤ t + W := by
          intro x hx
          have hx2 := (List.mem_filter.mp hx).2
          simp only [Bool.and_eq_true, decide_eq_true_eq] at hx2
          exact hx2
        have hclosed_min : ∀ x y : ℚ, (t ≤ x ∧ x ≤ t + W) → (t ≤ y ∧ y ≤ t + W) →
            (t ≤ min x y ∧ min x y ≤ t + W) := by
          intro x y hx hy
          exact ⟨le_min hx.1 hy.1, le_trans (min_le_left x y) hx.2⟩
        have hclosed_max : ∀ x y : ℚ, (t ≤ x ∧ x ≤ t + W) → (t ≤ y ∧ y ≤ t + W) →
            (t ≤ max x y ∧ max x y ≤ t + W) := by
          intro x y hx hy
          exact ⟨le_trans hx.1 (le_max_left x y), max_le hx.2 hy.2⟩
        have ht : t ≤ t ∧ t ≤ t + W := ⟨le_refl t, by linarith⟩
        have h1 := foldl_pres min _ hclosed_min _ t ht hall
        have h2 := foldl_pres max _ hclosed_max _ t ht hall
        have h3 := foldl_min_le_init
          ((t :: rest).filter (fun x => decide (t ≤ x) && decide (x ≤ t + W))) t
        have h4 := le_foldl_max
          ((t :: rest).filter (fun x => decide (t ≤ x) && decide (x ≤ t + W))) t
        rw [hev]
        exact ⟨le_trans h3 h4, by dsimp only; linarith [h1.1, h2.2]⟩
      · exact ih (rest.filter (fun x => decide (t + W < x)))
          (le_trans (List.length_filter_le _ _)
            (Nat.succ_le_succ_iff.mp hl)) e htail

/-- C9: every event produced by the merge pass with window `W ≥ 0`
satisfies `start_time ≤ end_time` and `end_time − start_time ≤ W`: each
event absorbs only detections inside the fixed window `[t, t+W]` opened at
its earliest undecided detection. -/
theorem merge_detections_window_bound (W : ℚ) (l : List ℚ) (e : ℚ × ℚ)
    (hW : 0 ≤ W) (he : e ∈ mergeGo W l) : e.1 ≤ e.2 ∧ e.2 - e.1 ≤ W :=
  mergeGo_event_bounds W hW l.length l (le_refl _) e he

/-- Witness for C9 at `W = 2`, detections `[0, 3/2, 3]` and the first
merged event `(0, 3/2)`. -/
theorem merge_detections_window_bound_witness :
    ((0 : ℚ), (3/2 : ℚ)).1 ≤ ((0 : ℚ), (3/2 : ℚ)).2 ∧
    ((0 : ℚ), (3/2 : ℚ)).2 - ((0 : ℚ), (3/2 : ℚ)).1 ≤ 2 :=
  merge_detections_window_bound 2 [0, 3/2, 3] (0, 3/2) (by norm_num)
    (by norm_num [mergeGo, List.filter])

/-- C3 counterexample: no sorted detection list whatsoever makes the merge
pass (window `W = 2`, the default) produce an event longer than the
window — the pass absorbs only detections in the fixed window `[t, t+2]`
opened at the earliest undecided detection, so a chain of detections each
within `2` of the previous is split, never chained. -/
theorem merge_no_chain_counterexample :
    ¬ ∃ (l : List ℚ) (e : ℚ × ℚ), l.Sorted (· ≤ ·) ∧ e ∈ mergeGo 2 l ∧
      2 < e.2 - e.1 := by
  rintro ⟨l, e, -, he, hgt⟩
  exact absurd
    (mergeGo_event_bounds 2 (by norm_num) l.length l (le_refl _) e he).2
    (not_le.mpr hgt)

/-- C3 amended: the coalescing pass is a fixed-window merge, not greedy
chaining — every merged event produced with the default window `W = 2`
spans at most `2` hours, and a chain of detections each within `2` of the
previous whose total span exceeds `2` (timestamps `[0, 3/2, 3]`) is split
into the two events `(0, 3/2)` and `(3, 3)` rather than absorbed into
one. -/
theorem merge_fixed_window_spec :
    (∀ (l : List ℚ) (e : ℚ × ℚ), e ∈ mergeGo 2 l → e.2 - e.1 ≤ 2) ∧
    mergeGo 2 [0, 3/2, 3] = [(0, 3/2), (3, 3)] :=
  ⟨fun l e he =>
      (mergeGo_event_bounds 2 (by norm_num) l.length l (le_refl _) e he).2,
    by norm_num [mergeGo, List.filter]⟩

/-- Witness for the amended C3 at the second event of `[0, 3/2, 3]`. -/
theorem merge_fixed_window_spec_witness :
    ((3 : ℚ), (3 : ℚ)).2 - ((3 : ℚ), (3 : ℚ)).1 ≤ 2 :=
  merge_fixed_window_spec.1 [0, 3/2, 3] (3, 3)
    (by norm_num [mergeGo, List.filter])

/-! ### `classify_event` (cme_detection_system.py, lines 448–456) -/

/-- The fixed classification rule applied to each validated event row. -/
def classify_event (numInstruments : ℕ) (avgConfidence : ℚ) : String :=
  if 3 ≤ numInstruments ∧ 0.6 < avgConfidence then "High Confidence"
  else if 2 ≤ numInstruments ∧ 0.4 < avgConfidence then "Medium Confidence"
  else "Low Confidence"

/-- C8: the classification is `High Confidence` iff `num_instruments ≥ 3`
and `avg_confidence > 0.6`; otherwise `Medium Confidence` iff
`num_instruments ≥ 2` and `avg_confidence > 0.4`; otherwise
`Low Confidence` — and it is always exactly one of the three strings. -/
theorem classify_event_spec (n : ℕ) (c : ℚ) :
    (classify_event n c = "High Confidence" ↔ (3 ≤ n ∧ 0.6 < c)) ∧
    (classify_event n c = "Medium Confidence" ↔
      (¬ (3 ≤ n ∧ 0.6 < c) ∧ 2 ≤ n ∧ 0.4 < c)) ∧
    (classify_event n c = "Low Confidence" ↔
      (¬ (3 ≤ n ∧ 0.6 < c) ∧ ¬ (2 ≤ n ∧ 0.4 < c))) ∧
    (classify_event n c = "High Confidence" ∨
      classify_event n c = "Medium Confidence" ∨
      classify_event n c = "Low Confidence") := by
  unfold classify_event
  by_cases h1 : 3 ≤ n ∧ 0.6 < c
  · rw [if_pos h1]
    refine ⟨⟨fun _ => h1, fun _ => rfl⟩, ⟨fun h => absurd h (by decide), ?_⟩,
      ⟨fun h => absurd h (by decide), fun h => absurd h1 h.1⟩, Or.inl rfl⟩
    intro h
    exact absurd h1 h.1
  · rw [if_neg h1]
    by_cases h2 : 2 ≤ n ∧ 0.4 < c
    · rw [if_pos h2]
      exact ⟨⟨fun h => absurd h (by decide), fun h => absurd h h1⟩,
        ⟨fun _ => ⟨h1, h2⟩, fun _ => rfl⟩,
        ⟨fun h => absurd h (by decide), fun h => absurd h2 h.2⟩,
        Or.inr (Or.inl rfl)⟩
    · rw [if_neg h2]
      exact ⟨⟨fun h => absurd h (by decide), fun h => absurd h h1⟩,
        ⟨fun h => absurd h (by decide), fun h => absurd h.2.2 (by tauto)⟩,
        ⟨fun _ => ⟨h1, h2⟩, fun _ => rfl⟩, Or.inr (Or.inr rfl)⟩

/-! ### `_calculate_validation_metrics` (threshold_optimization.py, lines 311–352)

Detections and reference events are `(time, instrument)` pairs (times in
hours).  The inner for-loops with `break` test whether some element of the
other set matches, i.e. `List.any`; the outer loop over the reference set
accumulates true positives and false negatives and is embedded as a fold,
with a theorem identifying the counts. -/

/-- The match test
`det_instrument == instrument and abs(det_time - synth_time) <= tolerance`. -/
def evMatch (tol : ℚ) (s d : ℚ × String) : Bool :=
  (d.2 == s.2) && decide (|d.1 - s.1| ≤ tol)

/-- The first loop of `_calculate_validation_metrics`: for each reference
event, a true positive if some detection matches (first match breaks the
scan), otherwise a false negative. -/
def tpFnCount (tol : ℚ) (dets : List (ℚ × String)) :
    List (ℚ × String) → ℕ × ℕ
  | [] => (0, 0)
  | s :: rest =>
    let r := tpFnCount tol dets rest
    if dets.any (evMatch tol s) then (r.1 + 1, r.2) else (r.1, r.2 + 1)

/-- `true_positives`. -/
def tpOf (tol : ℚ) (dets synths : List (ℚ × String)) : ℕ :=
  (tpFnCount tol dets synths).1

/-- `false_negatives`. -/
def fnOf (tol : ℚ) (dets synths : List (ℚ × String)) : ℕ :=
  (tpFnCount tol dets synths).2

/-- `false_positives`: the second loop counts the detections matched by no
reference event. -/
def fpOf (tol : ℚ) (dets synths : List (ℚ × String)) : ℕ :=
  dets.countP (fun d => ! synths.any (fun s => evMatch tol s d))

/-- `precision = tp / (tp + fp) if (tp + fp) > 0 else 0`. -/
def precisionOf (tol : ℚ) (dets synths : List (ℚ × String)) : ℚ :=
  if 0 < tpOf tol dets synths + fpOf tol dets synths then
    (tpOf tol dets synths : ℚ) / (tpOf tol dets synths + fpOf tol dets synths)
  else 0

/-- `recall = tp / (tp + fn) if (tp + fn) > 0 else 0`. -/
def recallOf (tol : ℚ) (dets synths : List (ℚ × String)) : ℚ :=
  if 0 < tpOf tol dets synths + fnOf tol dets synths then
    (tpOf tol dets synths : ℚ) / (tpOf tol dets synths + fnOf tol dets synths)
  else 0

/-- `f1 = 2·(precision·recall)/(precision+recall) if (precision+recall) > 0 else 0`. -/
def f1Of (tol : ℚ) (dets synths : List (ℚ × String)) : ℚ :=
  if 0 < precisionOf tol dets synths + recallOf tol dets synths then
    2 * (precisionOf tol dets synths * recallOf tol dets synths) /
      (precisionOf tol dets synths + recallOf tol dets synths)
  else 0

/-- The returned metrics record. -/
structure ValidationMetrics where
  truePositives : ℕ
  falsePositives : ℕ
  falseNegatives : ℕ
  precisionScore : ℚ
  recallScore : ℚ
  f1Score : ℚ
deriving DecidableEq

/-- `_calculate_validation_metrics`. -/
def validationMetrics (tol : ℚ) (dets synths : List (ℚ × String)) :
    ValidationMetrics :=
  ⟨tpOf tol dets synths, fpOf tol dets synths, fnOf tol dets synths,
    precisionOf tol dets synths, recallOf tol dets synths,
    f1Of tol dets synths⟩

lemma tpFnCount_eq (tol : ℚ) (dets : List (ℚ × String)) :
    ∀ synths : List (ℚ × String),
      tpFnCount tol dets synths =
        (synths.countP (fun s => dets.any (evMatch tol s)),
          synths.countP (fun s => ! dets.any (evMatch tol s)))
  | [] => rfl
  | s :: rest => by
    simp only [tpFnCount, tpFnCount_eq tol dets rest, List.countP_cons]
    by_cases h : dets.any (evMatch tol s) = true
    · simp [h]
    · simp [h]

/-- C7: the validator counts a true positive for each reference event with
a matching same-instrument detection inside the tolerance, a false
negative for each unmatched reference event and a false positive for each
unmatched detection; precision, recall and F1 follow the standard
formulas, each `0` when its denominator is `0` (total definitions, no
division error); and one detection at 10:00 against one same-instrument
reference at 10:30 with tolerance 1 hour gives
`TP = 1, FP = 0, FN = 0` and `precision = recall = F1 = 1`. -/
theorem validation_metrics_spec (tol : ℚ) (dets synths : List (ℚ × String)) :
    (tpOf tol dets synths =
        synths.countP (fun s => dets.any (evMatch tol s)) ∧
      fnOf tol dets synths =
        synths.countP (fun s => ! dets.any (evMatch tol s)) ∧
      fpOf tol dets synths =
        dets.countP (fun d => ! synths.any (fun s => evMatch tol s d))) ∧
    (tpOf tol dets synths + fpOf tol dets synths = 0 →
      precisionOf tol dets synths = 0) ∧
    (0 < tpOf tol dets synths + fpOf tol dets synths →
      precisionOf tol dets synths =
        (tpOf tol dets synths : ℚ) /
          (tpOf tol dets synths + fpOf tol dets synths)) ∧
    (tpOf tol dets synths + fnOf tol dets synths = 0 →
      recallOf tol dets synths = 0) ∧
    (0 < tpOf tol dets synths + fnOf tol dets synths →
      recallOf tol dets synths =
        (tpOf tol dets synths : ℚ) /
          (tpOf tol dets synths + fnOf tol dets synths)) ∧
    (precisionOf tol dets synths + recallOf tol dets synths = 0 →
      f1Of tol dets synths = 0) ∧
    (0 < precisionOf tol dets synths + recallOf tol dets synths →
      f1Of tol dets synths =
        2 * (precisionOf tol dets synths * recallOf tol dets synths) /
          (precisionOf tol dets synths + recallOf tol dets synths)) ∧
    validationMetrics 1 [(10, "A")] [(21/2, "A")] = ⟨1, 0, 0, 1, 1, 1⟩ := by
  refine ⟨⟨?_, ?_, rfl⟩, ?_, ?_, ?_, ?_, ?_, ?_,
    by norm_num [validationMetrics, tpOf, fnOf, fpOf, precisionOf, recallOf,
      f1Of, tpFnCount, evMatch, abs_le, List.countP, List.countP.go,
      ValidationMetrics.mk.injEq]⟩
  · unfold tpOf
    rw [tpFnCount_eq]
  · unfold fnOf
    rw [tpFnCount_eq]
  · intro h
    unfold precisionOf
    rw [if_neg (by omega)]
  · intro h
    unfold precisionOf
    rw [if_pos h]
  · intro h
    unfold recallOf
    rw [if_neg (by omega)]
  · intro h
    unfold recallOf
    rw [if_pos h]
  · intro h
    unfold f1Of
    rw [if_neg (by rw [h]; exact lt_irrefl 0)]
  · intro h
    unfold f1Of
    rw [if_pos h]

/-- Witness for C7's guard hypotheses: empty inputs give zero denominators
and metric `0`; the scenario inputs give a positive denominator and
`precision = 1/(1+0)`. -/
theorem validation_metrics_spec_witness :
    (precisionOf 1 [] [] = 0 ∧ recallOf 1 [] [] = 0 ∧ f1Of 1 [] [] = 0) ∧
    precisionOf 1 [(10, "A")] [(21/2, "A")] =
      (tpOf 1 [(10, "A")] [(21/2, "A")] : ℚ) /
        (tpOf 1 [(10, "A")] [(21/2, "A")] + fpOf 1 [(10, "A")] [(21/2, "A")]) :=
  ⟨⟨(validation_metrics_spec 1 [] []).2.1 rfl,
    (validation_metrics_spec 1 [] []).2.2.2.1 rfl,
    (validation_metrics_spec 1 [] []).2.2.2.2.2.1
      (by norm_num [precisionOf, recallOf, tpOf, fpOf, fnOf, tpFnCount])⟩,
    (validation_metrics_spec 1 [(10, "A")] [(21/2, "A")]).2.2.1
      (by norm_num [tpOf, fpOf, tpFnCount, evMatch, abs_le,
        List.countP, List.countP.go])⟩

/-! ### `compute_empirical_threshold` (final_processing.py, lines 234–253)

`valid = (~isnan(arr)) & (arr != nan_fill_value) & isfinite(arr)`; over `ℚ`
the only exclusion is equality with the fill value.  `np.percentile` is the
default linear-interpolation percentile and raises `ValueError` when its
percentile argument is outside `[0, 100]`; `np.std` (ddof 0) is the square
root of the mean squared deviation, with the square root abstracted as
`sqrtQ : ℚ → ℚ`.  A raised `ValueError` is embedded as `Except.error`. -/

/-- The `valid` filter of `compute_empirical_threshold`. -/
def filterValid (fill : ℚ) (data : List ℚ) : List ℚ :=
  data.filter (fun x => decide (x ≠ fill))

/-- `clean.mean()`. -/
def meanL (l : List ℚ) : ℚ := l.sum / l.length

/-- The mean squared deviation (the square of `clean.std()`). -/
def varL (l : List ℚ) : ℚ := (l.map (fun x => (x - meanL l) ^ 2)).sum / l.length

/-- `np.percentile(c, q)` with the default linear interpolation: on the
ascending sort `s`, `pos = q·(n−1)/100` and the result interpolates
between `s[⌊pos⌋]` and `s[⌈pos⌉]`. -/
def percentileL (c : List ℚ) (q : ℚ) : ℚ :=
  (c.insertionSort (· ≤ ·)).getD (⌊q * ((c.length : ℚ) - 1) / 100⌋).toNat 0 +
    (q * ((c.length : ℚ) - 1) / 100 - ⌊q * ((c.length : ℚ) - 1) / 100⌋) *
      ((c.insertionSort (· ≤ ·)).getD (⌈q * ((c.length : ℚ) - 1) / 100⌉).toNat 0 -
        (c.insertionSort (· ≤ ·)).getD (⌊q * ((c.length : ℚ) - 1) / 100⌋).toNat 0)

/-- `compute_empirical_threshold(data, method, param, nan_fill_value)`. -/
def compute_empirical_threshold (method : String) (param : ℚ)
    (nanFillValue : ℚ) (sqrtQ : ℚ → ℚ) (data : List ℚ) : Except String ℚ :=
  if (filterValid nanFillValue data).length = 0 then
    .error "No valid data points for threshold computation."
  else if method = "percentile" then
    if 0 ≤ param ∧ param ≤ 100 then
      .ok (percentileL (filterValid nanFillValue data) param)
    else .error "Percentiles must be in the range 0 to 100 inclusive"
  else if method = "mean_sigma" then
    .ok (meanL (filterValid nanFillValue data) +
      param * sqrtQ (varL (filterValid nanFillValue data)))
  else .error "method must be percentile or mean_sigma"

/-- C10 counterexample: on `data = [1]` (which has a valid point) with the
valid method `percentile` but `param = 150`, `np.percentile` raises
`ValueError`, so the function does not raise exactly on the two claimed
conditions. -/
theorem compute_empirical_threshold_range_counterexample :
    filterValid FILL [1] ≠ [] ∧
    (compute_empirical_threshold "percentile" 150 FILL (fun x => x)
        [1]).isOk = false := by
  constructor
  · norm_num [filterValid, FILL]
  · norm_num [compute_empirical_threshold, filterValid, FILL, Except.isOk,
      Except.toBool]

/-- C10 amended: the function raises `ValueError` exactly when the input
has no valid point (every element equals the fill value), or the method is
neither `percentile` nor `mean_sigma`, or the method is `percentile` with
a percentile argument outside `[0, 100]`; otherwise it returns a value
computed only from the valid points — the `param`-th percentile of the
valid subset, or its mean plus `param` times its standard deviation — and
prepending a fill-valued point to the data never changes the result. -/
theorem compute_empirical_threshold_spec (sqrtQ : ℚ → ℚ) (data : List ℚ)
    (method : String) (param : ℚ) :
    ((compute_empirical_threshold method param FILL sqrtQ data).isOk = false ↔
      (filterValid FILL data = [] ∨
        (method = "percentile" ∧ ¬ (0 ≤ param ∧ param ≤ 100)) ∨
        (method ≠ "percentile" ∧ method ≠ "mean_sigma"))) ∧
    (filterValid FILL data ≠ [] → method = "percentile" →
      0 ≤ param → param ≤ 100 →
      compute_empirical_threshold method param FILL sqrtQ data =
        .ok (percentileL (filterValid FILL data) param)) ∧
    (filterValid FILL data ≠ [] → method = "mean_sigma" →
      compute_empirical_threshold method param FILL sqrtQ data =
        .ok (meanL (filterValid FILL data) +
          param * sqrtQ (varL (filterValid FILL data)))) ∧
    compute_empirical_threshold method param FILL sqrtQ (FILL :: data) =
      compute_empirical_threshold method param FILL sqrtQ data := by
  have hfc : filterValid FILL (FILL :: data) = filterValid FILL data := by
    simp [filterValid]
  refine ⟨?_, ?_, ?_, ?_⟩
  · unfold compute_empirical_threshold
    rcases List.eq_nil_or_concat (filterValid FILL data) with hnil | hne
    · rw [if_pos (by rw [hnil]; rfl)]
      exact iff_of_true rfl (Or.inl hnil)
    · have hlen : ¬ (filterValid FILL data).length = 0 := by
        rcases hne with ⟨l, x, hlx⟩
        rw [hlx]
        simp
      have hnil' : ¬ filterValid FILL data = [] := by
        intro h
        exact hlen (by rw [h]; rfl)
      rw [if_neg hlen]
      by_cases hp : method = "percentile"
      · rw [if_pos hp]
        by_cases hq : 0 ≤ param ∧ param ≤ 100
        · rw [if_pos hq]
          refine iff_of_false (fun h => Bool.noConfusion h) ?_
          rintro (h | ⟨-, hq2⟩ | ⟨hp2, -⟩)
          · exact hnil' h
          · exact hq2 hq
          · exact hp2 hp
        · rw [if_neg hq]
          exact iff_of_true rfl (Or.inr (Or.inl ⟨hp, hq⟩))
      · rw [if_neg hp]
        by_cases hm : method = "mean_sigma"
        · rw [if_pos hm]
          refine iff_of_false (fun h => Bool.noConfusion h) ?_
          rintro (h | ⟨hp2, -⟩ | ⟨-, hm2⟩)
          · exact hnil' h
          · exact hp hp2
          · exact hm2 hm
        · rw [if_neg hm]
          exact iff_of_true rfl (Or.inr (Or.inr ⟨hp, hm⟩))
  · intro hne hp h0 h100
    unfold compute_empirical_threshold
    rw [if_neg (by simpa [List.length_eq_zero] using hne), if_pos hp,
      if_pos ⟨h0, h100⟩]
  · intro hne hm
    unfold compute_empirical_threshold
    rw [if_neg (by simpa [List.length_eq_zero] using hne),
      if_neg (by rw [hm]; decide), if_pos hm]
  · unfold compute_empirical_threshold
    rw [hfc]

/-- Witness for C10's amended theorem: `data = [5]` with method
`mean_sigma`, `param = 2` hits the mean-plus-sigma branch, and with method
`percentile`, `param = 50` hits the percentile branch. -/
theorem compute_empirical_threshold_spec_witness :
    compute_empirical_threshold "mean_sigma" 2 FILL (fun x => x) [5] =
      .ok (meanL (filterValid FILL [5]) + 2 * varL (filterValid FILL [5])) ∧
    compute_empirical_threshold "percentile" 50 FILL (fun x => x) [5] =
      .ok (percentileL (filterValid FILL [5]) 50) :=
  ⟨(compute_empirical_threshold_spec (fun x => x) [5] "mean_sigma" 2).2.2.1
      (by norm_num [filterValid, FILL]) rfl,
    (compute_empirical_threshold_spec (fun x => x) [5] "percentile" 50).2.1
      (by norm_num [filterValid, FILL]) rfl (by norm_num) (by norm_num)⟩

end NasaCME
